import Mathlib

/-!
Shallow embedding of `ironic_python_agent/utils.py` (agent parameter
resolution for the ironic-python-agent): the key=value text parser
`_read_params_from_file`, the virtual-media reader `_get_vmedia_params`,
the cached resolver `get_agent_params`, and the root-device hint
validation `parse_root_device_hints` with its `normalize` helper.

Python dictionaries are modelled as association lists with unique keys:
`dinsert` mirrors `d[k] = v` (overwrite in place, append when fresh) and
`dget` mirrors `d.get(k)`.  External effects (file contents, command
results, device presence) are supplied through explicit environment
records, and performed I/O is recorded as an event trace.
-/

namespace IPA

/-- A Python dict with string keys, as an association list (unique keys
by construction of `dinsert`). -/
abbrev Dict (α : Type) := List (String × α)

/-- `d.get(k)`: the value bound to `k`, if any. -/
def dget {α : Type} (k : String) (d : Dict α) : Option α :=
  (d.find? (fun p => p.1 = k)).map (fun p => p.2)

/-- `d[k] = v`: overwrite an existing binding in place, else append. -/
def dinsert {α : Type} (k : String) (v : α) (d : Dict α) : Dict α :=
  if d.any (fun p => p.1 = k) then
    d.map (fun p => if p.1 = k then (k, v) else p)
  else
    d ++ [(k, v)]

/-- `d.update(other)`: fold the entries of `other` into `d`, later
entries overwriting earlier bindings. -/
def dupdate {α : Type} (d other : Dict α) : Dict α :=
  other.foldl (fun acc p => dinsert p.1 p.2 acc) d

/-- A parameter map: string keys to string values. -/
abbrev Params := Dict String

/-- The whitespace characters recognised by Python `str.split()`. -/
def pyIsSpace (c : Char) : Bool :=
  c = ' ' || c = '\t' || c = '\n' || c = '\r' || c = '\x0b' || c = '\x0c'

/-- Python `str.split()` on a character list: maximal runs of
non-whitespace characters, in order; no empty tokens. -/
def wsTokenize : List Char → List Char → List (List Char)
  | [], [] => []
  | [], acc => [acc.reverse]
  | c :: cs, acc =>
    if pyIsSpace c then
      match acc with
      | [] => wsTokenize cs []
      | _ => acc.reverse :: wsTokenize cs []
    else
      wsTokenize cs (c :: acc)

/-- Python `s.split()` (no separator argument). -/
def pySplit (s : String) : List String :=
  (wsTokenize s.data []).map String.mk

/-- Python `s.split(sep)` for a one-character separator, on character
lists: the fields between the separators, empty fields kept; the empty
input gives one empty field. -/
def splitOnChar (sep : Char) : List Char → List Char → List (List Char)
  | [], acc => [acc.reverse]
  | c :: cs, acc =>
    if c = sep then acc.reverse :: splitOnChar sep cs []
    else splitOnChar sep cs (c :: acc)

/-- Python `s.split(sep)` for a one-character separator. -/
def pySplitChar (sep : Char) (s : String) : List String :=
  (splitOnChar sep s.data []).map String.mk

/-- Python `s.split('=', 1)` guarded by `'=' in s`: `none` when the
token holds no `=`, else the parts before and after the first `=`. -/
def splitFirstEq (s : String) : Option (String × String) :=
  match pySplitChar '=' s with
  | [] => none
  | [_] => none
  | k :: rest => some (k, "=".intercalate rest)

/-- Loop body of `_read_params_from_file`: skip tokens without `=`,
otherwise split on the first `=` and assign. -/
def insertToken (params : Params) (tok : String) : Params :=
  match splitFirstEq tok with
  | none => params
  | some kv => dinsert kv.1 kv.2 params

/-- `_read_params_from_file`, applied to the file content: split on
whitespace, keep `key=value` tokens, build the dict. -/
def readParamsFromContent (content : String) : Params :=
  (pySplit content).foldl insertToken {}

/-! ### Root device hints: `normalize` and `parse_root_device_hints` -/

/-- `SUPPORTED_ROOT_DEVICE_HINTS` from the source (a Python set; here a
list used for membership). -/
def SUPPORTED_ROOT_DEVICE_HINTS : List String :=
  ["size", "model", "wwn", "serial", "vendor"]

/-- Numeric value of a hex digit, as used by percent-decoding. -/
def hexVal (c : Char) : Option Nat :=
  if '0' ≤ c ∧ c ≤ '9' then some (c.toNat - '0'.toNat)
  else if 'a' ≤ c ∧ c ≤ 'f' then some (c.toNat - 'a'.toNat + 10)
  else if 'A' ≤ c ∧ c ≤ 'F' then some (c.toNat - 'A'.toNat + 10)
  else none

/-- `urllib.unquote` on a character list: `%XX` with two hex digits
becomes the character with that code, anything else is kept verbatim. -/
def unquoteChars : List Char → List Char
  | [] => []
  | '%' :: c1 :: c2 :: rest =>
    match hexVal c1, hexVal c2 with
    | some hi, some lo => Char.ofNat (16 * hi + lo) :: unquoteChars rest
    | _, _ => '%' :: unquoteChars (c1 :: c2 :: rest)
  | c :: rest => c :: unquoteChars rest

/-- `parse.unquote` on strings. -/
def pyUnquote (s : String) : String := String.mk (unquoteChars s.data)

/-- Python `str.lower()` (ASCII case mapping). -/
def pyLower (s : String) : String := String.mk (s.data.map Char.toLower)

/-- Python `str.strip()`: drop leading and trailing whitespace. -/
def pyStrip (s : String) : String :=
  String.mk (((s.data.dropWhile pyIsSpace).reverse.dropWhile pyIsSpace).reverse)

/-- `normalize` from the source: `parse.unquote(string).lower().strip()`. -/
def normalize (s : String) : String := pyStrip (pyLower (pyUnquote s))

/-- Value of a decimal digit. -/
def decDigit (c : Char) : Option Nat :=
  if '0' ≤ c ∧ c ≤ '9' then some (c.toNat - '0'.toNat) else none

/-- Value of a non-empty all-digit character list, else `none`. -/
def decDigitsVal (cs : List Char) : Option Nat :=
  if cs.isEmpty then none
  else cs.foldlM (fun acc c => (decDigit c).map (fun d => acc * 10 + d)) 0

/-- Python `int(s)` on a string: optional surrounding whitespace, an
optional sign, then at least one decimal digit; anything else raises. -/
def pyInt (s : String) : Option Int :=
  match (pyStrip s).data with
  | '-' :: rest => (decDigitsVal rest).map (fun n => -(n : Int))
  | '+' :: rest => (decDigitsVal rest).map (fun n => (n : Int))
  | cs => (decDigitsVal cs).map (fun n => (n : Int))

/-- Errors raised by the module.  `deviceNotFound` keeps the data the
message is built from: the full list of unsupported keys and the list
of supported hints.  `valueError` is the `dict()`-construction failure
on a malformed hint item, `intConversion` the `int()` failure on a
non-numeric `size` value, `ioError` a propagated file-read failure. -/
inductive IPAError where
  | virtualMediaBoot (msg : String)
  | deviceNotFound (notSupported : List String) (supported : List String)
  | valueError
  | intConversion (value : String)
  | ioError
  deriving DecidableEq, Repr

instance {ε α : Type} [DecidableEq ε] [DecidableEq α] :
    DecidableEq (Except ε α) := fun x y =>
  match x, y with
  | Except.ok a, Except.ok b =>
    match decEq a b with
    | isTrue h => isTrue (h ▸ rfl)
    | isFalse h => isFalse (fun hc => h (Except.ok.inj hc))
  | Except.error a, Except.error b =>
    match decEq a b with
    | isTrue h => isTrue (h ▸ rfl)
    | isFalse h => isFalse (fun hc => h (Except.error.inj hc))
  | Except.ok _, Except.error _ => isFalse (fun hc => Except.noConfusion hc)
  | Except.error _, Except.ok _ => isFalse (fun hc => Except.noConfusion hc)

/-- A root-device hint value: a normalized string, or an integer for
the `size` hint. -/
inductive HintVal where
  | str (v : String)
  | int (n : Int)
  deriving DecidableEq, Repr

/-- A root-device hint map. -/
abbrev Hints := Dict HintVal

/-- `dict(item.split('=') for item in items)`: each item is split on
every `=`; an item yielding anything but exactly two fields makes the
`dict` constructor raise `ValueError`; later items overwrite earlier
bindings of the same key. -/
def pyDictOfPairs (items : List String) : Except IPAError Params :=
  items.foldlM
    (fun acc item =>
      match pySplitChar '=' item with
      | [k, v] => Except.ok (dinsert k v acc)
      | _ => Except.error IPAError.valueError)
    {}

/-- `parse_root_device_hints`, applied to the `root_device` value taken
from the resolved agent parameters (`None` or the string value). -/
def parseRootDeviceHintsFrom (rootDevice : Option String) :
    Except IPAError Hints :=
  match rootDevice with
  | none => Except.ok {}
  | some rd =>
    if rd = "" then Except.ok {}
    else
      match pyDictOfPairs (pySplitChar ',' rd) with
      | Except.error e => Except.error e
      | Except.ok hints =>
        let notSupported := (hints.map (fun p => p.1)).filter
          (fun k => !(SUPPORTED_ROOT_DEVICE_HINTS.contains k))
        if notSupported ≠ [] then
          Except.error
            (IPAError.deviceNotFound notSupported SUPPORTED_ROOT_DEVICE_HINTS)
        else
          let norm : Dict String := hints.map (fun p => (p.1, normalize p.2))
          match dget "size" norm with
          | none => Except.ok (norm.map (fun p => (p.1, HintVal.str p.2)))
          | some sizeVal =>
            match pyInt sizeVal with
            | none => Except.error (IPAError.intConversion sizeVal)
            | some n =>
              Except.ok (dinsert "size" (HintVal.int n)
                (norm.map (fun p => (p.1, HintVal.str p.2))))

/-! ### Virtual media reader and the cached resolver -/

/-- One unit of file or device I/O performed by the module. -/
inductive IOEvent where
  | readCmdline
  | statDevice
  | sysfsScan
  | mkdtemp
  | mountCmd
  | readParamsFile
  | umountCmd
  | rmtree
  deriving DecidableEq, Repr

/-- Environment of one `_get_vmedia_params` call: whether the
`/dev/disk/by-label/ir-vfd-dev` path exists, what `_get_vmedia_device`
would return, whether the `mount` and `umount` commands succeed, and
the content of `parameters.txt` (`none` when opening it raises). -/
structure VmEnv where
  labelDeviceExists : Bool
  sysfsDevice : Option String
  mountOk : Bool
  paramFileContent : Option String
  umountOk : Bool
  deriving DecidableEq, Repr

/-- Device-file resolution at the top of `_get_vmedia_params`: the
stable by-label path when it exists, else the sysfs fallback
(`if not vmedia_device` treats `None` and `""` alike as absent). -/
def vmediaDeviceFile (e : VmEnv) : Option String :=
  if e.labelDeviceExists then some "/dev/disk/by-label/ir-vfd-dev"
  else
    match e.sysfsDevice with
    | none => none
    | some d => if d = "" then none else some ("/dev/" ++ d)

/-- I/O performed while resolving the device file. -/
def vmediaLookupTrace (e : VmEnv) : List IOEvent :=
  if e.labelDeviceExists then [IOEvent.statDevice]
  else [IOEvent.statDevice, IOEvent.sysfsScan]

/-- `_get_vmedia_params`: resolve the device, make a temporary mount
point, mount, read `parameters.txt`, try to unmount (failure swallowed)
and remove the temporary directory in the `finally` block on every path
after its creation.  Returns the outcome and the I/O event trace. -/
def getVmediaParams (e : VmEnv) : Except IPAError Params × List IOEvent :=
  match vmediaDeviceFile e with
  | none =>
    (Except.error (IPAError.virtualMediaBoot "Unable to find virtual media device"),
      vmediaLookupTrace e)
  | some dev =>
    if e.mountOk then
      match e.paramFileContent with
      | none =>
        (Except.error IPAError.ioError,
          vmediaLookupTrace e ++
            [IOEvent.mkdtemp, IOEvent.mountCmd, IOEvent.readParamsFile,
              IOEvent.rmtree])
      | some content =>
        -- the `umount` outcome is caught and ignored either way
        if e.umountOk then
          (Except.ok (readParamsFromContent content),
            vmediaLookupTrace e ++
              [IOEvent.mkdtemp, IOEvent.mountCmd, IOEvent.readParamsFile,
                IOEvent.umountCmd, IOEvent.rmtree])
        else
          (Except.ok (readParamsFromContent content),
            vmediaLookupTrace e ++
              [IOEvent.mkdtemp, IOEvent.mountCmd, IOEvent.readParamsFile,
                IOEvent.umountCmd, IOEvent.rmtree])
    else
      (Except.error (IPAError.virtualMediaBoot
          ("Unable to mount virtual media device " ++ dev)),
        vmediaLookupTrace e ++
          [IOEvent.mkdtemp, IOEvent.mountCmd, IOEvent.rmtree])

/-- Environment of a resolution: the `/proc/cmdline` content and the
virtual-media environment. -/
structure Env where
  cmdline : String
  vm : VmEnv
  deriving DecidableEq, Repr

/-- The uncached body of `get_agent_params`: parse `/proc/cmdline`; when
`boot_method` is `vmedia`, read the virtual media parameters and merge
them over the cmdline map (vmedia wins on collisions). -/
def resolveParams (env : Env) : Except IPAError Params × List IOEvent :=
  if dget "boot_method" (readParamsFromContent env.cmdline) = some "vmedia" then
    match getVmediaParams env.vm with
    | (Except.error e, tr) => (Except.error e, IOEvent.readCmdline :: tr)
    | (Except.ok vmParams, tr) =>
      (Except.ok (dupdate (readParamsFromContent env.cmdline) vmParams),
        IOEvent.readCmdline :: tr)
  else
    (Except.ok (readParamsFromContent env.cmdline), [IOEvent.readCmdline])

/-- `get_agent_params` with the module-level cache passed explicitly:
returns the call outcome (a deep copy of the merged map; value-equal in
this embedding), the cache after the call, and the I/O trace.  The
cache is consulted first; the Python emptiness test `if not params`
is the test against `[]`. -/
def getAgentParams (env : Env) (cache : Params) :
    Except IPAError Params × Params × List IOEvent :=
  if cache = [] then
    match resolveParams env with
    | (Except.error e, tr) => (Except.error e, cache, tr)
    | (Except.ok merged, tr) => (Except.ok merged, merged, tr)
  else
    (Except.ok cache, cache, [])

/-- No key occurs twice in a dict (the Python-dict invariant). -/
def NodupKeys {α : Type} (d : Dict α) : Prop :=
  (d.map (fun p => p.1)).Nodup

/-! ### Heap model for the defensive copy

Python dicts are mutable objects reached through references.  To state
that the map handed to the caller of `get_agent_params` is an
independent deep copy of the cached map, the dicts live in an explicit
heap (a list of cells) and both the module cache and the returned value
are cell indices.  `copy.deepcopy` allocates a fresh cell holding the
same contents; a caller mutation is an `hset` on the returned index. -/

/-- Read heap cell `r` (out-of-range reads the empty dict). -/
def hget (heap : List Params) (r : Nat) : Params := heap.getD r []

/-- Overwrite heap cell `r` (a caller mutating its dict in place). -/
def hset (heap : List Params) (r : Nat) (ps : Params) : List Params :=
  heap.set r ps

/-- Allocate a fresh cell holding `ps`; returns the new heap and the
fresh index. -/
def halloc (heap : List Params) (ps : Params) : List Params × Nat :=
  (heap ++ [ps], heap.length)

/-- `get_agent_params` over the heap: consult the cache cell; on a miss
resolve, point the cache at the freshly built dict, and in all cases
return `copy.deepcopy` of the cached dict as a newly allocated cell.
Returns `(returned ref, cache ref, heap)`. -/
def getAgentParamsRef (env : Env) (heap : List Params) (cacheRef : Nat) :
    Except IPAError (Nat × Nat × List Params) :=
  if hget heap cacheRef = [] then
    match (resolveParams env).1 with
    | Except.error e => Except.error e
    | Except.ok merged =>
      let a1 := halloc heap merged
      let a2 := halloc a1.1 (hget a1.1 a1.2)
      Except.ok (a2.2, a1.2, a2.1)
  else
    let a := halloc heap (hget heap cacheRef)
    Except.ok (a.2, cacheRef, a.1)

/-- The contents of the dict a heap-level call hands to its caller. -/
def returnedContents (r : Except IPAError (Nat × Nat × List Params)) :
    Option Params :=
  match r with
  | Except.error _ => none
  | Except.ok out => some (hget out.2.2 out.1)

/-! ### Dictionary lemmas -/

theorem dget_nil {α : Type} (k : String) : dget (α := α) k [] = none := rfl

theorem keys_dinsert {α : Type} (k : String) (v : α) (d : Dict α) :
    (dinsert k v d).map (fun p => p.1) =
      if d.any (fun p => p.1 = k) then d.map (fun p => p.1)
      else d.map (fun p => p.1) ++ [k] := by
  unfold dinsert
  by_cases h : d.any (fun p => p.1 = k)
  · simp only [h, if_true, List.map_map]
    apply List.map_congr_left
    intro p _
    by_cases hp : p.1 = k
    · simp [hp]
    · simp [hp]
  · simp [h]

theorem dget_dinsert {α : Type} (k q : String) (v : α) (d : Dict α) :
    dget k (dinsert q v d) = if k = q then some v else dget k d := by
  unfold dinsert dget
  by_cases hany : d.any (fun p => p.1 = q)
  · simp only [hany, if_true]
    induction d with
    | nil => simp at hany
    | cons p rest ih =>
      by_cases hpq : p.1 = q
      · by_cases hkq : k = q
        · simp [List.find?, hpq, hkq]
        · simp only [List.map_cons, List.find?, hpq, if_true]
          have h1 : (decide ((q, v).1 = k)) = false := by
            simp [Ne.symm hkq]
          have h2 : (decide (p.1 = k)) = false := by
            simp [hpq, Ne.symm hkq]
          simp only [h1, h2]
          by_cases hrest : rest.any (fun p => p.1 = q)
          · exact ih hrest
          · -- no occurrence of q in rest: the map is the identity there
            have hid : rest.map (fun p => if p.1 = q then (q, v) else p)
                = rest.map id := by
              apply List.map_congr_left
              intro x hx
              have hxq : ¬ (x.1 = q) := by
                intro hxq
                exact hrest (List.any_eq_true.mpr ⟨x, hx, by simp [hxq]⟩)
              simp [hxq]
            rw [hid, List.map_id, if_neg hkq]
      · simp only [List.map_cons, List.find?, hpq, if_false]
        have hany2 : rest.any (fun p => p.1 = q) := by
          rcases List.any_eq_true.mp hany with ⟨x, hx, hxq⟩
          rcases List.mem_cons.mp hx with h | h
          · exfalso; apply hpq; simpa [h] using hxq
          · exact List.any_eq_true.mpr ⟨x, h, hxq⟩
        by_cases hpk : p.1 = k
        · by_cases hkq : k = q
          · exact absurd (hpk.trans hkq) hpq
          · simp [List.find?, hpk, hkq]
        · simp only [show (decide (p.1 = k)) = false by simp [hpk]]
          exact ih hany2
  · rw [if_neg hany, List.find?_append]
    by_cases hkq : k = q
    · subst hkq
      have hnone : d.find? (fun p => decide (p.1 = k)) = none := by
        rw [List.find?_eq_none]
        intro x hx
        intro hxk
        apply hany
        exact List.any_eq_true.mpr ⟨x, hx, hxk⟩
      rw [hnone, Option.none_or]
      simp [List.find?]
    · cases hfind : d.find? (fun p => decide (p.1 = k)) with
      | none =>
        have hq : ¬ (q = k) := fun h => hkq h.symm
        simp [hfind, List.find?, hq, hkq]
      | some p => simp [hfind, hkq]

theorem dget_foldl_pairs {α : Type} (k : String) (ps : List (String × α))
    (d : Dict α) :
    dget k (ps.foldl (fun acc p => dinsert p.1 p.2 acc) d) =
      match ps.reverse.find? (fun p => p.1 = k) with
      | some p => some p.2
      | none => dget k d := by
  induction ps generalizing d with
  | nil => simp
  | cons p ps ih =>
    simp only [List.foldl_cons, List.reverse_cons]
    rw [ih, List.find?_append]
    cases hfind : ps.reverse.find? (fun q => decide (q.1 = k)) with
    | some q => simp
    | none =>
      simp only [Option.none_or]
      rw [dget_dinsert]
      by_cases hk : k = p.1
      · simp [List.find?, hk]
      · have hp : ¬ (p.1 = k) := fun h => hk h.symm
        simp [List.find?, hk, hp]

theorem foldl_insertToken_eq (toks : List String) (d : Params) :
    toks.foldl insertToken d =
      (toks.filterMap splitFirstEq).foldl
        (fun acc p => dinsert p.1 p.2 acc) d := by
  induction toks generalizing d with
  | nil => rfl
  | cons t ts ih =>
    simp only [List.foldl_cons, List.filterMap_cons]
    cases h : splitFirstEq t with
    | none => simp [insertToken, h, ih]
    | some kv => simp [insertToken, h, ih]

/-- Keys of the dict built by the parser loop: every bound key comes
from some token, split at its first `=`. -/
theorem dget_foldl_insertToken_of_some (toks : List String) (k : String)
    (v : String) (h : dget k (toks.foldl insertToken []) = some v) :
    ∃ tok, tok ∈ toks ∧ splitFirstEq tok = some (k, v) := by
  rw [foldl_insertToken_eq, dget_foldl_pairs] at h
  cases hfind : (toks.filterMap splitFirstEq).reverse.find?
      (fun p => decide (p.1 = k)) with
  | none => rw [hfind] at h; simp [dget] at h
  | some p =>
    rw [hfind] at h
    simp only [Option.some.injEq] at h
    have hmem : p ∈ (toks.filterMap splitFirstEq).reverse :=
      List.mem_of_find?_eq_some hfind
    have hpk : p.1 = k := by
      have := List.find?_some hfind
      simpa using this
    rw [List.mem_reverse, List.mem_filterMap] at hmem
    rcases hmem with ⟨tok, htok, hsplit⟩
    refine ⟨tok, htok, ?_⟩
    rw [hsplit]
    obtain ⟨p1, p2⟩ := p
    simp only at hpk h
    rw [hpk, h]

/-- Conversely, every token holding an `=` leaves its key bound. -/
theorem dget_foldl_insertToken_isSome (toks : List String) (tok : String)
    (k v : String) (hmem : tok ∈ toks) (hsplit : splitFirstEq tok = some (k, v)) :
    (dget k (toks.foldl insertToken [])).isSome = true := by
  rw [foldl_insertToken_eq, dget_foldl_pairs]
  cases hfind : (toks.filterMap splitFirstEq).reverse.find?
      (fun p => decide (p.1 = k)) with
  | some p => simp
  | none =>
    exfalso
    rw [List.find?_eq_none] at hfind
    apply hfind (k, v)
    · rw [List.mem_reverse, List.mem_filterMap]
      exact ⟨tok, hmem, hsplit⟩
    · simp

/-- A whitespace-only character list tokenizes to nothing. -/
theorem wsTokenize_all_space (cs : List Char)
    (h : ∀ c ∈ cs, pyIsSpace c = true) : wsTokenize cs [] = [] := by
  induction cs with
  | nil => rfl
  | cons c cs ih =>
    have hc : pyIsSpace c = true := h c (List.mem_cons_self c cs)
    unfold wsTokenize
    simp only [hc, if_true]
    exact ih (fun x hx => h x (List.mem_cons_of_mem c hx))

/-! ### Unique-key invariant -/

theorem nodupKeys_dinsert {α : Type} (k : String) (v : α) (d : Dict α)
    (h : NodupKeys d) : NodupKeys (dinsert k v d) := by
  unfold NodupKeys at h ⊢
  rw [keys_dinsert]
  by_cases hany : d.any (fun p => p.1 = k)
  · rw [if_pos hany]; exact h
  · rw [if_neg hany]
    have hk : k ∉ d.map (fun p => p.1) := by
      intro hmem
      rcases List.mem_map.mp hmem with ⟨p, hp, hpk⟩
      exact hany (List.any_eq_true.mpr ⟨p, hp, by simp [hpk]⟩)
    rw [← List.concat_eq_append]
    exact h.concat hk

theorem nodupKeys_foldl_insertToken (toks : List String) (d : Params)
    (h : NodupKeys d) : NodupKeys (toks.foldl insertToken d) := by
  induction toks generalizing d with
  | nil => exact h
  | cons t ts ih =>
    simp only [List.foldl_cons]
    apply ih
    unfold insertToken
    cases splitFirstEq t with
    | none => exact h
    | some kv => exact nodupKeys_dinsert kv.1 kv.2 d h

theorem nodupKeys_readParamsFromContent (s : String) :
    NodupKeys (readParamsFromContent s) :=
  nodupKeys_foldl_insertToken (pySplit s) [] (by simp [NodupKeys])

/-- With unique keys, searching a dict backwards agrees with searching
it forwards. -/
theorem find?_reverse_of_nodupKeys {α : Type} (k : String) (d : Dict α)
    (h : NodupKeys d) :
    d.reverse.find? (fun p => p.1 = k) = d.find? (fun p => p.1 = k) := by
  induction d with
  | nil => rfl
  | cons p rest ih =>
    unfold NodupKeys at h
    simp only [List.map_cons, List.nodup_cons] at h
    obtain ⟨hp, hrest⟩ := h
    simp only [List.reverse_cons]
    rw [List.find?_append, ih hrest]
    by_cases hk : p.1 = k
    · have hnone : rest.find? (fun q => decide (q.1 = k)) = none := by
        rw [List.find?_eq_none]
        intro x hx hxk
        apply hp
        rw [List.mem_map]
        refine ⟨x, hx, ?_⟩
        simp only [decide_eq_true_eq] at hxk
        rw [hxk, hk]
      simp [hnone, List.find?, hk]
    · simp [List.find?, hk]

/-- Looking a key up after `d.update(other)`: the `other` binding wins
when present, else the original binding survives. -/
theorem dget_dupdate {α : Type} (k : String) (d other : Dict α)
    (h : NodupKeys other) :
    dget k (dupdate d other) =
      match dget k other with
      | some v => some v
      | none => dget k d := by
  unfold dupdate
  rw [dget_foldl_pairs, find?_reverse_of_nodupKeys k other h]
  unfold dget
  cases other.find? (fun p => decide (p.1 = k)) with
  | none => rfl
  | some p => rfl

/-- Mapping over the values of a dict commutes with lookup. -/
theorem dget_map_value {α β : Type} (k : String) (f : α → β) (d : Dict α) :
    dget k (d.map (fun p => (p.1, f p.2))) = (dget k d).map f := by
  unfold dget
  rw [List.find?_map]
  have hpred : ((fun p : String × β => decide (p.1 = k)) ∘
      (fun p : String × α => (p.1, f p.2))) =
      (fun p : String × α => decide (p.1 = k)) := rfl
  rw [hpred]
  cases d.find? (fun p => decide (p.1 = k)) with
  | none => rfl
  | some p => rfl

/-! ### Characterising the virtual-media reader -/

/-- A successful `_get_vmedia_params` run returns exactly the parse of
the `parameters.txt` content. -/
theorem getVmediaParams_ok (e : VmEnv) (ps : Params)
    (h : (getVmediaParams e).1 = Except.ok ps) :
    ∃ content, e.paramFileContent = some content ∧
      ps = readParamsFromContent content := by
  unfold getVmediaParams at h
  cases hdev : vmediaDeviceFile e with
  | none => rw [hdev] at h; simp at h
  | some dev =>
    rw [hdev] at h
    dsimp only at h
    by_cases hm : e.mountOk
    · rw [if_pos hm] at h
      cases hc : e.paramFileContent with
      | none => rw [hc] at h; simp at h
      | some content =>
        rw [hc] at h
        dsimp only at h
        refine ⟨content, rfl, ?_⟩
        by_cases hu : e.umountOk
        · rw [if_pos hu] at h
          simp only [Except.ok.injEq] at h
          exact h.symm
        · rw [if_neg hu] at h
          simp only [Except.ok.injEq] at h
          exact h.symm
    · rw [if_neg hm] at h
      simp at h

/-! ### Characterising the hint-item dict construction -/

theorem pyDictOfPairs_go (items : List String) (acc : Params) :
    ((items.all (fun item => (pySplitChar '=' item).length = 2)) = true →
      items.foldlM
        (fun acc item =>
          match pySplitChar '=' item with
          | [k, v] => Except.ok (dinsert k v acc)
          | _ => Except.error IPAError.valueError)
        acc =
      Except.ok ((items.filterMap splitFirstEq).foldl
        (fun a p => dinsert p.1 p.2 a) acc)) ∧
    ((items.all (fun item => (pySplitChar '=' item).length = 2)) = false →
      items.foldlM
        (fun acc item =>
          match pySplitChar '=' item with
          | [k, v] => Except.ok (dinsert k v acc)
          | _ => Except.error IPAError.valueError)
        acc =
      Except.error IPAError.valueError) := by
  induction items generalizing acc with
  | nil => exact ⟨fun _ => rfl, fun h => by simp at h⟩
  | cons t ts ih =>
    constructor
    · intro hall
      simp only [List.all_cons, Bool.and_eq_true, decide_eq_true_eq] at hall
      obtain ⟨ht, hts⟩ := hall
      rcases hsplit : pySplitChar '=' t with _ | ⟨k, _ | ⟨v, rest2⟩⟩
      · simp [hsplit] at ht
      · simp [hsplit] at ht
      · cases rest2 with
        | cons w ws => simp [hsplit] at ht
        | nil =>
          simp only [List.foldlM_cons, hsplit]
          have hfirst : splitFirstEq t = some (k, v) := by
            unfold splitFirstEq
            rw [hsplit]
            rfl
          simp only [List.filterMap_cons, hfirst]
          have := (ih (dinsert k v acc)).1 hts
          simpa using this
    · intro hall
      simp only [List.all_cons, Bool.and_eq_true] at hall
      rcases hsplit : pySplitChar '=' t with _ | ⟨k, _ | ⟨v, rest2⟩⟩
      · simp only [List.foldlM_cons, hsplit]
        rfl
      · simp only [List.foldlM_cons, hsplit]
        rfl
      · cases rest2 with
        | cons w ws =>
          simp only [List.foldlM_cons, hsplit]
          rfl
        | nil =>
          have hts : ts.all (fun item => (pySplitChar '=' item).length = 2) = false := by
            have ht2 : decide ((pySplitChar '=' t).length = 2) = true := by
              simp [hsplit]
            rw [ht2, Bool.true_and] at hall
            exact hall
          simp only [List.foldlM_cons, hsplit]
          have := (ih (dinsert k v acc)).2 hts
          simpa using this

/-! ### Heap lemmas -/

theorem hget_halloc_fresh (heap : List Params) (ps : Params) :
    hget (heap ++ [ps]) heap.length = ps := by
  simp [hget]

theorem hget_hset_ne (heap : List Params) (r q : Nat) (ps : Params)
    (h : r ≠ q) : hget (hset heap r ps) q = hget heap q := by
  simp [hget, hset, List.getElem?_set_ne h]

theorem lt_length_of_hget_ne_nil (heap : List Params) (r : Nat)
    (h : hget heap r ≠ []) : r < heap.length := by
  by_contra hc
  apply h
  rw [hget, List.getD_eq_getElem?_getD,
    List.getElem?_eq_none (Nat.le_of_not_lt hc)]
  rfl

/-- The dict contents a heap-level resolution call returns depend on
the heap only through the cache cell that was consulted. -/
theorem returnedContents_getAgentParamsRef (env : Env)
    (heap : List Params) (cr : Nat) :
    returnedContents (getAgentParamsRef env heap cr) =
      if hget heap cr = [] then ((resolveParams env).1).toOption
      else some (hget heap cr) := by
  unfold getAgentParamsRef
  by_cases hc : hget heap cr = []
  · rw [if_pos hc, if_pos hc]
    cases hres : (resolveParams env).1 with
    | error e => rfl
    | ok merged =>
      show returnedContents (Except.ok _) = _
      unfold returnedContents
      dsimp only [halloc]
      rw [hget_halloc_fresh, hget_halloc_fresh]
      rfl
  · rw [if_neg hc, if_neg hc]
    unfold returnedContents
    dsimp only [halloc]
    rw [hget_halloc_fresh]

/-- On success the cache reference is strictly below the returned
(freshly allocated) reference. -/
theorem getAgentParamsRef_ok_refs (env : Env) (heap : List Params)
    (cacheRef ret cr : Nat) (h2 : List Params)
    (hok : getAgentParamsRef env heap cacheRef = Except.ok (ret, cr, h2)) :
    cr < ret := by
  unfold getAgentParamsRef at hok
  by_cases hc : hget heap cacheRef = []
  · rw [if_pos hc] at hok
    cases hres : (resolveParams env).1 with
    | error e => rw [hres] at hok; simp at hok
    | ok merged =>
      rw [hres] at hok
      dsimp only [halloc] at hok
      simp only [Except.ok.injEq, Prod.mk.injEq] at hok
      obtain ⟨hret, hcr, _⟩ := hok
      rw [← hret, ← hcr]
      simp
  · rw [if_neg hc] at hok
    dsimp only [halloc] at hok
    simp only [Except.ok.injEq, Prod.mk.injEq] at hok
    obtain ⟨hret, hcr, _⟩ := hok
    rw [← hret, ← hcr]
    exact lt_length_of_hget_ne_nil heap cacheRef hc

/-! ### The claims -/

/-- Claim C6: on every execution path of `_get_vmedia_params` that
reaches the creation of the temporary mount directory (`mkdtemp` in the
trace), the last I/O action before the function returns or raises is
the removal of that directory (`rmtree`); and when the device is found,
the mount succeeds and `parameters.txt` is readable, the parsed
parameters are returned whatever the `umount` outcome — an unmount
failure is swallowed and does not prevent the cleanup.  The `rmtree`
event is the removal performed by the `finally` block; the source
additionally swallows an error raised by the removal itself. -/
theorem getVmediaParams_cleanup (e : VmEnv) :
    (IOEvent.mkdtemp ∈ (getVmediaParams e).2 →
      (getVmediaParams e).2.getLast? = some IOEvent.rmtree ∧
        IOEvent.rmtree ∈ (getVmediaParams e).2) ∧
    (∀ content, (vmediaDeviceFile e).isSome = true → e.mountOk = true →
      e.paramFileContent = some content →
      (getVmediaParams e).1 = Except.ok (readParamsFromContent content)) := by
  constructor
  · intro hmk
    unfold getVmediaParams at hmk ⊢
    cases hdev : vmediaDeviceFile e with
    | none =>
      rw [hdev] at hmk
      dsimp only at hmk
      exfalso
      unfold vmediaLookupTrace at hmk
      by_cases hl : e.labelDeviceExists = true
      · rw [if_pos hl] at hmk; simp at hmk
      · rw [if_neg hl] at hmk; simp at hmk
    | some dev =>
      dsimp only
      by_cases hm : e.mountOk = true
      · rw [if_pos hm]
        cases hc : e.paramFileContent with
        | none => simp
        | some content =>
          by_cases hu : e.umountOk = true
          · simp [hu]
          · simp [hu]
      · rw [if_neg hm]; simp
  · intro content hdev hm hc
    unfold getVmediaParams
    cases hdev2 : vmediaDeviceFile e with
    | none => rw [hdev2] at hdev; simp at hdev
    | some dev =>
      dsimp only
      rw [if_pos hm, hc]
      by_cases hu : e.umountOk = true
      · simp [hu]
      · simp [hu]

/-- Claim C6 (witness): a simulated mount failure still ends in the
directory removal, and a failing unmount after a successful read does
not disturb the returned parameters. -/
theorem getVmediaParams_cleanup_witness :
    (getVmediaParams ⟨true, none, false, none, true⟩).2.getLast? =
      some IOEvent.rmtree ∧
    (getVmediaParams ⟨true, none, true, some "a=2", false⟩).1 =
      Except.ok (readParamsFromContent "a=2") :=
  ⟨((getVmediaParams_cleanup ⟨true, none, false, none, true⟩).1 (by decide)).1,
    (getVmediaParams_cleanup ⟨true, none, true, some "a=2", false⟩).2
      "a=2" (by decide) rfl rfl⟩

/-- Claim C7: `_read_params_from_file` splits the text on whitespace
(including newlines) into the tokens `pySplit`, returns the empty map
on whitespace-only input, binds a key only as the first-`=` split of
some token, and binds the key of every token that holds an `=`; tokens
without `=` contribute nothing.  Totality (`never fails on any text`)
holds because `readParamsFromContent` is a total function. -/
theorem readParamsFromContent_token_spec (s : String) :
    ((∀ c ∈ s.data, pyIsSpace c = true) → readParamsFromContent s = []) ∧
    (∀ k v, dget k (readParamsFromContent s) = some v →
      ∃ tok, tok ∈ pySplit s ∧ splitFirstEq tok = some (k, v)) ∧
    (∀ tok k v, tok ∈ pySplit s → splitFirstEq tok = some (k, v) →
      (dget k (readParamsFromContent s)).isSome = true) := by
  refine ⟨?_, ?_, ?_⟩
  · intro hsp
    unfold readParamsFromContent pySplit
    rw [wsTokenize_all_space s.data hsp]
    rfl
  · intro k v h
    exact dget_foldl_insertToken_of_some (pySplit s) k v h
  · intro tok k v hmem hsplit
    exact dget_foldl_insertToken_isSome (pySplit s) tok k v hmem hsplit

/-- Claim C7 (witness): whitespace-only input parses to the empty map,
and a well-formed token leaves its key bound. -/
theorem readParamsFromContent_token_spec_witness :
    readParamsFromContent " \n\t " = [] ∧
    (dget "a" (readParamsFromContent "x a=1")).isSome = true :=
  ⟨(readParamsFromContent_token_spec " \n\t ").1 (by decide),
    (readParamsFromContent_token_spec "x a=1").2.2 "a=1" "a" "1"
      (by decide) (by decide)⟩

/-- Claim C10: when several tokens bind the same key, the parsed map
holds the value of the last such token: the lookup equals the value of
the last token whose first-`=` split carries that key. -/
theorem readParamsFromContent_last_token_wins (s k : String) :
    dget k (readParamsFromContent s) =
      (((pySplit s).filterMap splitFirstEq).reverse.find?
        (fun p => p.1 = k)).map (fun p => p.2) := by
  show dget k ((pySplit s).foldl insertToken {}) = _
  rw [foldl_insertToken_eq, dget_foldl_pairs]
  cases ((pySplit s).filterMap splitFirstEq).reverse.find?
      (fun p => decide (p.1 = k)) with
  | none => rfl
  | some p => rfl

/-- Claim C1: when `boot_method=vmedia` is on the kernel command line
and the virtual-media read succeeds, `get_agent_params` resolves to a
map that binds every key of the virtual-media map to its virtual-media
value — vmedia entries overwrite colliding cmdline entries. -/
theorem getAgentParams_vmedia_overrides_cmdline (env : Env)
    (vmParams : Params)
    (hboot : dget "boot_method" (readParamsFromContent env.cmdline) =
      some "vmedia")
    (hvm : (getVmediaParams env.vm).1 = Except.ok vmParams) :
    (getAgentParams env []).1 = Except.ok ((getAgentParams env []).2.1) ∧
    ∀ k v, dget k vmParams = some v →
      dget k ((getAgentParams env []).2.1) = some v := by
  have hnd : NodupKeys vmParams := by
    obtain ⟨content, _, hps⟩ := getVmediaParams_ok env.vm vmParams hvm
    rw [hps]
    exact nodupKeys_readParamsFromContent content
  cases hgv : getVmediaParams env.vm with
  | mk r tr =>
    rw [hgv] at hvm
    dsimp only at hvm
    subst hvm
    have hres : resolveParams env =
        (Except.ok (dupdate (readParamsFromContent env.cmdline) vmParams),
          IOEvent.readCmdline :: tr) := by
      unfold resolveParams
      rw [if_pos hboot, hgv]
    have hga : getAgentParams env [] =
        (Except.ok (dupdate (readParamsFromContent env.cmdline) vmParams),
          dupdate (readParamsFromContent env.cmdline) vmParams,
          IOEvent.readCmdline :: tr) := by
      unfold getAgentParams
      rw [if_pos rfl, hres]
    rw [hga]
    refine ⟨rfl, ?_⟩
    intro k v hkv
    dsimp only
    rw [dget_dupdate k (readParamsFromContent env.cmdline) vmParams hnd, hkv]

/-- Claim C1 (witness): cmdline `a=1 boot_method=vmedia` with vmedia
content `a=2` yields the map `{a: "2", boot_method: "vmedia"}`. -/
theorem getAgentParams_vmedia_overrides_cmdline_witness :
    (getAgentParams ⟨"a=1 boot_method=vmedia",
        ⟨true, none, true, some "a=2", true⟩⟩ []).1 =
      Except.ok [("a", "2"), ("boot_method", "vmedia")] ∧
    dget "a" ((getAgentParams ⟨"a=1 boot_method=vmedia",
        ⟨true, none, true, some "a=2", true⟩⟩ []).2.1) = some "2" := by
  have h := getAgentParams_vmedia_overrides_cmdline
    ⟨"a=1 boot_method=vmedia", ⟨true, none, true, some "a=2", true⟩⟩
    [("a", "2")] (by decide) (by decide)
  exact ⟨h.1.trans (by decide), h.2 "a" "2" (by decide)⟩

/-- Claim C2 (counterexample): the claim says each hint item is split
on the FIRST `=` so a value may itself contain `=`; on the code the
item is split on every `=`, so `root_device=model=a=b` raises the
dict-construction `ValueError` where a first-`=` split would have
produced the pair `("model", "a=b")`. -/
theorem parseRootDeviceHints_value_with_eq_counterexample :
    parseRootDeviceHintsFrom (some "model=a=b") =
      Except.error IPAError.valueError ∧
    splitFirstEq "model=a=b" = some ("model", "a=b") :=
  ⟨by decide, by decide⟩

/-- Claim C2 (amended): `parse_root_device_hints` splits the string on
`,` into items and each item on EVERY `=`: the dict construction
succeeds exactly when every item holds exactly one `=`, each such item
contributing the pair around its `=`; an item with no `=` or with more
than one `=` (a value containing `=`) makes the splitting `ValueError`
propagate to the caller. -/
theorem pyDictOfPairs_single_eq_items (rd : String) :
    ((pySplitChar ',' rd).all
        (fun item => (pySplitChar '=' item).length = 2) = true →
      pyDictOfPairs (pySplitChar ',' rd) =
        Except.ok (((pySplitChar ',' rd).filterMap splitFirstEq).foldl
          (fun acc p => dinsert p.1 p.2 acc) [])) ∧
    ((pySplitChar ',' rd).all
        (fun item => (pySplitChar '=' item).length = 2) = false →
      pyDictOfPairs (pySplitChar ',' rd) = Except.error IPAError.valueError) :=
  ⟨fun h => (pyDictOfPairs_go (pySplitChar ',' rd) []).1 h,
    fun h => (pyDictOfPairs_go (pySplitChar ',' rd) []).2 h⟩

/-- Claim C2 (witness): a hint string whose items each hold one `=`
parses into its key/value pairs. -/
theorem pyDictOfPairs_single_eq_items_witness :
    pyDictOfPairs (pySplitChar ',' "model=abc,size=10") =
      Except.ok [("model", "abc"), ("size", "10")] := by
  have h := (pyDictOfPairs_single_eq_items "model=abc,size=10").1 (by decide)
  exact h.trans (by decide)

/-- Claim C3 (counterexample): when the first resolution yields an
EMPTY map, the cached empty map is indistinguishable from the `not yet
resolved` sentinel (`if not params`), so the second call re-reads
`/proc/cmdline` — its I/O trace is again `[readCmdline]`, not `[]`. -/
theorem getAgentParams_empty_result_refetch_counterexample :
    (getAgentParams ⟨"x", ⟨false, none, false, none, false⟩⟩ []).1 =
      Except.ok [] ∧
    (getAgentParams ⟨"x", ⟨false, none, false, none, false⟩⟩ []).2.1 = [] ∧
    (getAgentParams ⟨"x", ⟨false, none, false, none, false⟩⟩
        ((getAgentParams ⟨"x", ⟨false, none, false, none, false⟩⟩ []).2.1)).2.2 =
      [IOEvent.readCmdline] :=
  ⟨rfl, rfl, rfl⟩

/-- Claim C3 (amended): two successive calls return equal maps, and the
second call performs no I/O whenever the first returned a NON-empty
map; when the first resolution produced an empty map the second call
re-runs the identical resolution (same result and same I/O trace)
instead of hitting the cache. -/
theorem getAgentParams_second_call_cached (env : Env)
    (cache m c : Params) (tr : List IOEvent)
    (h : getAgentParams env cache = (Except.ok m, c, tr)) :
    getAgentParams env c = (Except.ok m, c, if m = [] then tr else []) := by
  unfold getAgentParams at h ⊢
  by_cases hc : cache = []
  · rw [if_pos hc] at h
    cases hres : resolveParams env with
    | mk r t =>
      rw [hres] at h
      cases r with
      | error e =>
        dsimp only at h
        exact absurd h (by simp)
      | ok merged =>
        dsimp only at h
        simp only [Prod.mk.injEq, Except.ok.injEq] at h
        obtain ⟨h1, h2, h3⟩ := h
        subst h1
        subst h2
        subst h3
        by_cases hm : merged = []
        · rw [if_pos hm, if_pos hm]
        · rw [if_neg hm, if_neg hm]
  · rw [if_neg hc] at h
    simp only [Prod.mk.injEq, Except.ok.injEq] at h
    obtain ⟨h1, h2, h3⟩ := h
    subst h1
    subst h2
    subst h3
    rw [if_neg hc, ite_self]

/-- Claim C3 (witness): after a first call that resolved the non-empty
map `{a: "1"}`, the second call is a pure cache hit: same map, empty
I/O trace. -/
theorem getAgentParams_second_call_cached_witness :
    getAgentParams ⟨"a=1", ⟨false, none, false, none, false⟩⟩ [("a", "1")] =
      (Except.ok [("a", "1")], [("a", "1")], []) := by
  have h := getAgentParams_second_call_cached
    ⟨"a=1", ⟨false, none, false, none, false⟩⟩ [] [("a", "1")] [("a", "1")]
    [IOEvent.readCmdline] (by decide)
  exact h.trans (by decide)

/-- Claim C4: with an empty cache, `boot_method=vmedia` on the cmdline
and a failing virtual-media read, `get_agent_params` propagates the
error and the cache stays empty — no cmdline-only partial result is
stored. -/
theorem getAgentParams_vmedia_error_no_partial_cache (env : Env)
    (err : IPAError)
    (hboot : dget "boot_method" (readParamsFromContent env.cmdline) =
      some "vmedia")
    (hvm : (getVmediaParams env.vm).1 = Except.error err) :
    getAgentParams env [] =
      (Except.error err, [],
        IOEvent.readCmdline :: (getVmediaParams env.vm).2) := by
  cases hgv : getVmediaParams env.vm with
  | mk r tr =>
    rw [hgv] at hvm
    dsimp only at hvm
    subst hvm
    unfold getAgentParams resolveParams
    rw [if_pos rfl, if_pos hboot, hgv]

/-- Claim C4 (witness): no virtual-media device can be found, the error
propagates and the returned cache is still empty. -/
theorem getAgentParams_vmedia_error_no_partial_cache_witness :
    getAgentParams ⟨"boot_method=vmedia", ⟨false, none, false, none, false⟩⟩
        [] =
      (Except.error
          (IPAError.virtualMediaBoot "Unable to find virtual media device"),
        [], [IOEvent.readCmdline, IOEvent.statDevice, IOEvent.sysfsScan]) := by
  have h := getAgentParams_vmedia_error_no_partial_cache
    ⟨"boot_method=vmedia", ⟨false, none, false, none, false⟩⟩
    (IPAError.virtualMediaBoot "Unable to find virtual media device")
    (by decide) (by decide)
  exact h.trans (by decide)

/-- Claim C5: hint items parsing into key/value pairs with at least one
key outside {size, model, wwn, serial, vendor} make
`parse_root_device_hints` fail with `DeviceNotFound` built from the
FULL list of unsupported keys together with the supported list — for
every choice of values, hence before any value normalization or size
conversion could run. -/
theorem parseRootDeviceHints_unsupported_keys_error (rd : String)
    (hints : Params) (hrd : rd ≠ "")
    (hparse : pyDictOfPairs (pySplitChar ',' rd) = Except.ok hints)
    (hbad : (hints.map (fun p => p.1)).any
        (fun k => !(SUPPORTED_ROOT_DEVICE_HINTS.contains k)) = true) :
    parseRootDeviceHintsFrom (some rd) =
      Except.error (IPAError.deviceNotFound
        ((hints.map (fun p => p.1)).filter
          (fun k => !(SUPPORTED_ROOT_DEVICE_HINTS.contains k)))
        SUPPORTED_ROOT_DEVICE_HINTS) ∧
    ∀ k, (k ∈ (hints.map (fun p => p.1)).filter
        (fun k => !(SUPPORTED_ROOT_DEVICE_HINTS.contains k))) ↔
      (k ∈ hints.map (fun p => p.1) ∧ k ∉ SUPPORTED_ROOT_DEVICE_HINTS) := by
  have hne : (hints.map (fun p => p.1)).filter
      (fun k => !(SUPPORTED_ROOT_DEVICE_HINTS.contains k)) ≠ [] := by
    rcases List.any_eq_true.mp hbad with ⟨k, hk, hkb⟩
    intro hnil
    rw [List.filter_eq_nil_iff] at hnil
    exact absurd hkb (hnil k hk)
  constructor
  · unfold parseRootDeviceHintsFrom
    dsimp only
    rw [if_neg hrd, hparse]
    dsimp only
    rw [if_pos hne]
  · intro k
    simp [List.mem_filter]

/-- Claim C5 (witness): `root_device=foo=bar,size=abc` fails with
`DeviceNotFound` naming exactly `foo`, with the supported set, although
`size=abc` would later fail the integer conversion — the unsupported
check runs first. -/
theorem parseRootDeviceHints_unsupported_keys_error_witness :
    parseRootDeviceHintsFrom (some "foo=bar,size=abc") =
      Except.error (IPAError.deviceNotFound ["foo"]
        ["size", "model", "wwn", "serial", "vendor"]) := by
  have h := parseRootDeviceHints_unsupported_keys_error "foo=bar,size=abc"
    [("foo", "bar"), ("size", "abc")] (by decide) (by decide) (by decide)
  exact h.1.trans (by decide)

/-- Claim C8: with only supported hint keys, every hint value is
normalized (percent-decoded, lowercased, stripped); when `size` is
present its normalized value is converted by `int()` — so
`root_device=size=100` yields the integer 100 — and a non-numeric
`size` value propagates the conversion error. -/
theorem parseRootDeviceHints_normalizes_values (rd : String)
    (hints : Params) (hrd : rd ≠ "")
    (hparse : pyDictOfPairs (pySplitChar ',' rd) = Except.ok hints)
    (hsup : (hints.map (fun p => p.1)).all
        (fun k => SUPPORTED_ROOT_DEVICE_HINTS.contains k) = true) :
    (dget "size" hints = none →
      parseRootDeviceHintsFrom (some rd) =
        Except.ok (hints.map (fun p => (p.1, HintVal.str (normalize p.2))))) ∧
    (∀ sv, dget "size" hints = some sv →
      (pyInt (normalize sv) = none →
        parseRootDeviceHintsFrom (some rd) =
          Except.error (IPAError.intConversion (normalize sv))) ∧
      (∀ n, pyInt (normalize sv) = some n →
        parseRootDeviceHintsFrom (some rd) =
          Except.ok (dinsert "size" (HintVal.int n)
            (hints.map (fun p => (p.1, HintVal.str (normalize p.2))))))) := by
  have hnotsup : (hints.map (fun p => p.1)).filter
      (fun k => !(SUPPORTED_ROOT_DEVICE_HINTS.contains k)) = [] := by
    rw [List.filter_eq_nil_iff]
    intro k hk
    rw [List.all_eq_true] at hsup
    simpa using hsup k hk
  have hbase : parseRootDeviceHintsFrom (some rd) =
      (match dget "size" (hints.map (fun p => (p.1, normalize p.2))) with
        | none =>
          Except.ok ((hints.map (fun p => (p.1, normalize p.2))).map
            (fun p => (p.1, HintVal.str p.2)))
        | some sizeVal =>
          match pyInt sizeVal with
          | none => Except.error (IPAError.intConversion sizeVal)
          | some n =>
            Except.ok (dinsert "size" (HintVal.int n)
              ((hints.map (fun p => (p.1, normalize p.2))).map
                (fun p => (p.1, HintVal.str p.2))))) := by
    unfold parseRootDeviceHintsFrom
    dsimp only
    rw [if_neg hrd, hparse]
    dsimp only
    rw [if_neg (not_not_intro hnotsup)]
  refine ⟨?_, ?_⟩
  · intro hnone
    rw [hbase, dget_map_value, hnone]
    dsimp only [Option.map]
    rw [List.map_map]
    rfl
  · intro sv hsv
    constructor
    · intro hbadint
      rw [hbase, dget_map_value, hsv]
      dsimp only [Option.map]
      rw [hbadint]
    · intro n hn
      rw [hbase, dget_map_value, hsv]
      dsimp only [Option.map]
      rw [hn, List.map_map]
      rfl

/-- Claim C8 (witness): `root_device=size=100` yields the hint map
`{size: 100}` with an integer value. -/
theorem parseRootDeviceHints_normalizes_values_witness :
    parseRootDeviceHintsFrom (some "size=100") =
      Except.ok [("size", HintVal.int 100)] := by
  have h := (parseRootDeviceHints_normalizes_values "size=100"
    [("size", "100")] (by decide) (by decide) (by decide)).2 "100" (by decide)
  have h2 := h.2 100 (by decide)
  exact h2.trans (by decide)

/-- Claim C9: the dict handed back by `get_agent_params` is a freshly
allocated deep copy of the cached dict: overwriting the returned heap
cell (a caller mutation, arbitrary and hence any sequence of
mutations) leaves the cache cell untouched, and a later call returns
the same contents as it would have returned without the mutation. -/
theorem getAgentParamsRef_copy_independent (env : Env)
    (heap : List Params) (cacheRef ret cr : Nat) (h2 : List Params)
    (hok : getAgentParamsRef env heap cacheRef = Except.ok (ret, cr, h2))
    (mutated : Params) :
    ret ≠ cr ∧
    hget (hset h2 ret mutated) cr = hget h2 cr ∧
    returnedContents (getAgentParamsRef env (hset h2 ret mutated) cr) =
      returnedContents (getAgentParamsRef env h2 cr) := by
  have hlt : cr < ret :=
    getAgentParamsRef_ok_refs env heap cacheRef ret cr h2 hok
  have hne : ret ≠ cr := fun h => Nat.lt_irrefl cr (h ▸ hlt)
  refine ⟨hne, hget_hset_ne h2 ret cr mutated hne, ?_⟩
  rw [returnedContents_getAgentParamsRef, returnedContents_getAgentParamsRef,
    hget_hset_ne h2 ret cr mutated hne]

/-- Claim C9 (witness): after a concrete resolution the caller gets
cell 2, the cache points at cell 1, and clobbering cell 2 changes
neither the cache cell nor what the next call returns. -/
theorem getAgentParamsRef_copy_independent_witness :
    (2 : Nat) ≠ 1 ∧
    hget (hset [[], [("a", "1")], [("a", "1")]] 2 [("a", "mut")]) 1 =
      hget [[], [("a", "1")], [("a", "1")]] 1 ∧
    returnedContents (getAgentParamsRef
        ⟨"a=1", ⟨false, none, false, none, false⟩⟩
        (hset [[], [("a", "1")], [("a", "1")]] 2 [("a", "mut")]) 1) =
      returnedContents (getAgentParamsRef
        ⟨"a=1", ⟨false, none, false, none, false⟩⟩
        [[], [("a", "1")], [("a", "1")]] 1) :=
  getAgentParamsRef_copy_independent
    ⟨"a=1", ⟨false, none, false, none, false⟩⟩
    [[]] 0 2 1 [[], [("a", "1")], [("a", "1")]] (by decide) [("a", "mut")]

end IPA
